import Mathlib

/-!
Verification of the `ace-tool` synchronization engine (`src/index/manager.ts`,
`src/config.ts`) against its natural-language specification.

The TypeScript source is shallowly embedded: every definition below is a
direct translation of the corresponding source function, with strings kept
as Lean `String` (in Lean 4.14 a `String` is a packed `List Char`, so
character-level reasoning matches the source's JavaScript string indexing).
Effects (HTTP calls, the file system, timers) are made explicit: network
responses are supplied by an oracle function, persisted state is returned as
a value, and sleeps are recorded as a list of delay durations.
-/

namespace AceTool

/-- A blob: one file (or one chunk of a split file) sent to the remote
store.  Mirrors the `Blob` interface of `src/index/manager.ts`. -/
structure Blob where
  path : String
  content : String
deriving DecidableEq, Repr

/-- The derived blob id, from `calculateBlobName` in `src/index/manager.ts`:
the SHA-256 digest of the UTF-8 bytes of `filePath` immediately followed by
the UTF-8 bytes of `content`.  The digest is modelled by its input
character sequence: UTF-8 encoding is injective and maps string
concatenation to byte-string concatenation, and the SHA-256 digest is
assumed injective on its input byte string, so two ids are equal exactly
when the two character sequences below are equal. -/
def calculateBlobName (filePath : String) (content : String) : List Char :=
  filePath.data ++ content.data

/-- Upload strategy record, from `UploadStrategy` in `src/config.ts`. -/
structure UploadStrategy where
  batchSize : Nat
  concurrency : Nat
  timeout : Nat
  scaleName : String
deriving DecidableEq, Repr

/-- `getUploadStrategy` from `src/config.ts`: adaptive upload parameters
chosen from the number of pending blobs. -/
def getUploadStrategy (blobCount : Nat) : UploadStrategy :=
  if blobCount < 100 then
    { batchSize := 10, concurrency := 1, timeout := 30000, scaleName := "小型" }
  else if blobCount < 500 then
    { batchSize := 30, concurrency := 2, timeout := 45000, scaleName := "中型" }
  else if blobCount < 2000 then
    { batchSize := 50, concurrency := 3, timeout := 60000, scaleName := "大型" }
  else
    { batchSize := 70, concurrency := 4, timeout := 90000, scaleName := "超大型" }

/-- The line-scanning loop of `splitFileContent` (`src/index/manager.ts`,
lines 226-247): scan the text once, cutting after every `\n`, after every
`\r\n` pair (consumed together), and after every lone `\r`; a final
unterminated segment is kept.  `acc` holds the characters of the current
line in reverse, mirroring the `start` cursor of the source. -/
def splitLinesAux (acc : List Char) : List Char → List (List Char)
  | [] => if acc.isEmpty then [] else [acc.reverse]
  | '\n' :: rest => (acc.reverse ++ ['\n']) :: splitLinesAux [] rest
  | '\r' :: '\n' :: rest => (acc.reverse ++ ['\r', '\n']) :: splitLinesAux [] rest
  | '\r' :: rest => (acc.reverse ++ ['\r']) :: splitLinesAux [] rest
  | c :: rest => splitLinesAux (c :: acc) rest

/-- The `lines` array computed by `splitFileContent` for a given text. -/
def splitLines (content : String) : List (List Char) :=
  splitLinesAux [] content.data

/-- `Math.ceil(a / b)` for natural `a` and positive natural `b`, as used by
`splitFileContent` to compute the chunk count (exact for the integer ranges
involved). -/
def ceilDiv (a b : Nat) : Nat :=
  (a + b - 1) / b

/-- `splitFileContent` from `src/index/manager.ts` (lines 225-268), with the
instance field `this.maxLinesPerBlob` passed explicitly: if the text has at
most `maxLinesPerBlob` lines it becomes a single blob under the original
path; otherwise the lines are grouped into `ceil(L / maxLinesPerBlob)`
consecutive chunks of at most `maxLinesPerBlob` lines, the `\x7bi\x7d`-th chunk
named `path#chunk\x7bi\x7dof\x7bn\x7d` (1-indexed). -/
def splitFileContent (maxLinesPerBlob : Nat) (filePath : String)
    (content : String) : List Blob :=
  let lines := splitLines content
  let totalLines := lines.length
  if totalLines ≤ maxLinesPerBlob then
    [{ path := filePath, content := content }]
  else
    let numChunks := ceilDiv totalLines maxLinesPerBlob
    (List.range numChunks).map (fun chunkIdx =>
      let chunkLines := (lines.drop (chunkIdx * maxLinesPerBlob)).take maxLinesPerBlob
      { path := filePath ++ "#chunk" ++ toString (chunkIdx + 1) ++ "of" ++ toString numChunks,
        content := String.mk chunkLines.flatten })

/-- Occurrence test: does `pat` occur as a contiguous run inside `s`?
Models JavaScript `String.prototype.includes`. -/
def hasInfix (pat : List Char) : List Char → Bool
  | [] => pat.isEmpty
  | c :: t => pat.isPrefixOf (c :: t) || hasInfix pat t

/-- `s.includes(pat)` on strings. -/
def strIncludes (s pat : String) : Bool :=
  hasInfix pat.data s.data

/-- The error value inspected by `retryRequest`: the optional transport
error `code`, the optional HTTP response `status`, and the error
`message`, mirroring the fields of an Axios error the source reads. -/
structure ReqError where
  code : Option String
  status : Option Nat
  message : String
deriving DecidableEq, Repr

/-- Error message thrown on HTTP 401 (`src/index/manager.ts` line 341). -/
def tokenInvalidMsg : String := "Token 已失效或无效，请更新 ACE_TOKEN 环境变量"

/-- Error message thrown on HTTP 403 (line 347). -/
def accessDeniedMsg : String := "访问被拒绝，Token 可能已被官方禁用，请联系服务提供商"

/-- Error message thrown on SSL certificate failures (line 357). -/
def sslFailMsg : String := "SSL 证书验证失败，请检查 ACE_BASE_URL 配置是否正确，或联系服务提供商"

/-- The SSL-certificate-error test of `retryRequest` (lines 351-355). -/
def isSslError (e : ReqError) : Bool :=
  e.code == some "UNABLE_TO_VERIFY_LEAF_SIGNATURE" ||
  e.code == some "CERT_HAS_EXPIRED" ||
  e.code == some "ERR_TLS_CERT_ALTNAME_INVALID" ||
  strIncludes e.message "certificate" ||
  strIncludes e.message "altnames"

/-- The retryability test of `retryRequest` (lines 360-364): a transient
transport code, or an HTTP response with status at least 500. -/
def isRetryable (e : ReqError) : Bool :=
  e.code == some "ECONNREFUSED" ||
  e.code == some "ETIMEDOUT" ||
  e.code == some "ENOTFOUND" ||
  (match e.status with
   | some s => decide (500 ≤ s)
   | none => false)

/-- The friendlier message substituted before a non-retried error is
thrown (lines 368-375). -/
def friendlyMessage (e : ReqError) : String :=
  if e.code == some "ECONNREFUSED" then "无法连接到服务器，请检查网络或服务地址"
  else if e.code == some "ETIMEDOUT" then "连接超时，请检查网络状况"
  else if e.code == some "ENOTFOUND" then "无法解析服务器地址，请检查 ACE_BASE_URL 配置"
  else e.message

/-- Outcome of `retryRequest`: the returned value or the thrown message,
together with the number of attempts actually made and the list of backoff
delays slept between attempts, in order. -/
inductive RetryOut (α : Type) where
  | ok (val : α) (attempts : Nat) (delays : List Nat)
  | err (msg : String) (attempts : Nat) (delays : List Nat)
deriving DecidableEq, Repr

/-- The attempt count carried by a `RetryOut`. -/
def RetryOut.attempts : RetryOut α → Nat
  | .ok _ n _ => n
  | .err _ n _ => n

/-- The backoff-delay list carried by a `RetryOut`. -/
def RetryOut.delays : RetryOut α → List Nat
  | .ok _ _ d => d
  | .err _ _ d => d

/-- The `for (attempt …)` loop body of `retryRequest`
(`src/index/manager.ts` lines 331-383).  `f attempt` is the outcome of the
wrapped operation on the given attempt; `fuel` counts the loop iterations
still allowed (`maxRetries - attempt`).  A 401, a 403, or an SSL failure is
thrown at once with its dedicated message; a non-retryable error, or any
error on the last allowed attempt, is thrown with `friendlyMessage`;
otherwise the loop sleeps `retryDelay * 2 ^ attempt` and tries again. -/
def retryGo (f : Nat → Except ReqError α) (maxRetries retryDelay : Nat) :
    Nat → List Nat → Nat → RetryOut α
  | attempt, delays, 0 => .err "All retries failed" attempt delays
  | attempt, delays, fuel + 1 =>
    match f attempt with
    | .ok v => .ok v (attempt + 1) delays
    | .error e =>
      if e.status = some 401 then .err tokenInvalidMsg (attempt + 1) delays
      else if e.status = some 403 then .err accessDeniedMsg (attempt + 1) delays
      else if isSslError e then .err sslFailMsg (attempt + 1) delays
      else if isRetryable e = false ∨ attempt = maxRetries - 1 then
        .err (friendlyMessage e) (attempt + 1) delays
      else
        retryGo f maxRetries retryDelay (attempt + 1)
          (delays ++ [retryDelay * 2 ^ attempt]) fuel

/-- `retryRequest` from `src/index/manager.ts` (lines 324-387), with the
wrapped operation's behaviour supplied as `f : attempt index → outcome`.
The source defaults are `maxRetries = 3`, `retryDelay = 1000`. -/
def retryRequest (f : Nat → Except ReqError α) (maxRetries retryDelay : Nat) :
    RetryOut α :=
  retryGo f maxRetries retryDelay 0 [] maxRetries

/-- A JSON value, as produced by `JSON.parse`. -/
inductive JsonValue where
  | null : JsonValue
  | bool (b : Bool) : JsonValue
  | num (n : Int) : JsonValue
  | str (s : String) : JsonValue
  | arr (xs : List JsonValue) : JsonValue
  | obj (fields : List (String × JsonValue)) : JsonValue

/-- Is a JSON value the documented manifest shape, an array of string ids? -/
def JsonValue.isStringArray : JsonValue → Bool
  | .arr xs => xs.all fun x => match x with | .str _ => true | _ => false
  | _ => false

/-- The file-system state `loadIndex` can encounter at the manifest path:
the file is absent (`existsSync` false), reading it throws, or reading
succeeds and `JSON.parse` of its text yields the given outcome (an
exception, or a parsed value).  `JSON.parse` is a platform builtin, not
repository code, so its outcome on the file's text is carried in the state
rather than re-implemented. -/
inductive ManifestFsState where
  | absent : ManifestFsState
  | unreadable : ManifestFsState
  | readable (parsed : Except String JsonValue) : ManifestFsState

/-- `loadIndex` from `src/index/manager.ts` (lines 196-207): an absent
file yields `[]`; a read error or a `JSON.parse` exception is caught and
yields `[]`; a successful parse is returned as-is, with no validation of
its shape.  The function is total: it never throws. -/
def loadIndex : ManifestFsState → JsonValue
  | .absent => .arr []
  | .unreadable => .arr []
  | .readable (.error _) => .arr []
  | .readable (.ok v) => v

/-- One token of the regular expression built by `matchPattern`: a literal
character, `.` (any single character other than a line terminator), or
`.*` (any, possibly empty, run of such characters). -/
inductive RegexTok where
  | lit (c : Char) : RegexTok
  | anyOne : RegexTok
  | anyStar : RegexTok
deriving DecidableEq, Repr

/-- JavaScript `.` in a regular expression matches every character except
the four line terminators. -/
def regexDotMatches (c : Char) : Bool :=
  c != '\n' && c != '\r' && c != Char.ofNat 0x2028 && c != Char.ofNat 0x2029

/-- The regex-source translation of `matchPattern`
(`src/index/manager.ts` line 188): `pattern.replace(/\*/g, ".*")` then
`.replace(/\?/g, ".")`, with no other character escaped.  Tokenised
directly: `*` becomes `.*`, `?` becomes `.`, and a literal `.` already in
the pattern stays a regex `.`; every other character stands for itself.
This tokenisation is the regex's meaning whenever the pattern contains no
regex metacharacter other than `*`, `?`, and `.` (true of every default
exclusion pattern). -/
def patternToRegex (pattern : List Char) : List RegexTok :=
  pattern.map fun c =>
    if c = '*' then .anyStar
    else if c = '?' then .anyOne
    else if c = '.' then .anyOne
    else .lit c

/-- Anchored matching of a token list against a character list, the
semantics of `new RegExp("^" + regexPattern + "$").test(str)` for the
tokens produced by `patternToRegex`: a literal consumes exactly itself,
`.` consumes exactly one character the regex dot accepts, and `.*`
consumes some (possibly empty) prefix of such characters — every split is
tried, which is what the backtracking engine's accept/reject answer is. -/
def regexAccepts : List RegexTok → List Char → Bool
  | [], s => s.isEmpty
  | .lit c :: ps, s =>
    match s with
    | [] => false
    | c' :: s' => c == c' && regexAccepts ps s'
  | .anyOne :: ps, s =>
    match s with
    | [] => false
    | c' :: s' => regexDotMatches c' && regexAccepts ps s'
  | .anyStar :: ps, s =>
    (List.range (s.length + 1)).any fun k =>
      (s.take k).all regexDotMatches && regexAccepts ps (s.drop k)

/-- `matchPattern` from `src/index/manager.ts` (lines 187-191). -/
def matchPattern (str pattern : String) : Bool :=
  regexAccepts (patternToRegex pattern.data) str.data

/-- Splitting a character list at every occurrence of `sep`, JavaScript
`split` semantics: `n` separators yield `n + 1` (possibly empty) parts. -/
def splitCharsOn (sep : Char) : List Char → List Char → List String
  | acc, [] => [String.mk acc.reverse]
  | acc, c :: t =>
    if c = sep then String.mk acc.reverse :: splitCharsOn sep [] t
    else splitCharsOn sep (c :: acc) t

/-- Split a path string on `/`, as `pathStr.split('/')` does. -/
def splitOnSlash (s : String) : List String :=
  splitCharsOn '/' [] s.data

/-- The exclusion-pattern part of `shouldExclude`
(`src/index/manager.ts` lines 166-176), for a path already relativised and
slash-normalised, in the run with no `.gitignore` spec: a path is excluded
when any of its segments, or the whole path, matches any configured
exclusion pattern. -/
def shouldExclude (excludePatterns : List String) (pathStr : String) : Bool :=
  excludePatterns.any fun pattern =>
    (splitOnSlash pathStr).any (fun part => matchPattern part pattern) ||
      matchPattern pathStr pattern

/-- The network's behaviour towards one dispatched batch, indexed by the
batch's `totalBatchIdx`: either every POST for it resolves with the
response body's `blob_names`, or every attempt rejects with the same
error. -/
inductive BatchNet where
  | ok (blobNames : List (List Char)) : BatchNet
  | fail (e : ReqError) : BatchNet
deriving DecidableEq

/-- Result record produced by the `uploadBatch` helper of `indexProject`
(`src/index/manager.ts` lines 438-470); `batchIdx` is dropped, it is only
logged. -/
structure BatchResult where
  success : Bool
  blobNames : List (List Char)
  fatal : Bool
  error : Option String
deriving DecidableEq

/-- The fatal-error test of `uploadBatch` (lines 461-466): an error
message marking an auth, SSL, certificate, access-denied, or
DNS-resolution failure. -/
def isFatalErrorMessage (msg : String) : Bool :=
  strIncludes msg "Token" || strIncludes msg "SSL" || strIncludes msg "证书" ||
    strIncludes msg "访问被拒绝" || strIncludes msg "无法解析服务器"

/-- The `uploadBatch` helper of `indexProject` (lines 438-470): POST the
batch through `retryRequest` (source defaults `maxRetries = 3`,
`retryDelay = 1000`); an empty `blob_names` in a successful response is a
non-fatal failure; a thrown error is fatal exactly when its message
matches `isFatalErrorMessage`. -/
def uploadBatch (net : BatchNet) : BatchResult :=
  match retryRequest
      (fun _ => match net with | .ok names => .ok names | .fail e => .error e)
      3 1000 with
  | .ok names _ _ =>
    if names.isEmpty then
      { success := false, blobNames := [], fatal := false, error := some "服务器返回空结果" }
    else
      { success := true, blobNames := names, fatal := false, error := none }
  | .err msg _ _ =>
    { success := false, blobNames := [], fatal := isFatalErrorMessage msg, error := some msg }

/-- State of the upload loop of `indexProject` (lines 477-549). -/
structure UploadLoopState where
  pending : List Blob
  currentBatchSize : Nat
  retryRound : Nat
  totalBatchIdx : Nat
  uploaded : List (List Char)
  fatalError : Option String
deriving DecidableEq

/-- Partition a list into consecutive runs of `k` elements (the final run
possibly shorter), as the `for (let i = 0; i < len; i += k)` slicing loops
of `indexProject` do (lines 492-495 and 506).  `k = 0` never occurs there
(batch sizes are at least 5, concurrency at least 1); the fuel argument
makes the recursion structural. -/
def chunkListGo (k : Nat) : Nat → List α → List (List α)
  | _, [] => []
  | 0, l => [l]
  | fuel + 1, x :: xs => (x :: xs.take (k - 1)) :: chunkListGo k fuel (xs.drop (k - 1))

/-- `chunkList k l`: `l` cut into consecutive runs of `k` elements. -/
def chunkList (k : Nat) (l : List α) : List (List α) :=
  chunkListGo k l.length l

/-- Dispatch of one concurrency group (lines 518-537): each batch is
numbered with the next `totalBatchIdx` and uploaded, then the results are
folded in order — a success appends the server's names to the uploaded
list, a fatal failure overwrites `fatalError` with the result's error, and
a non-fatal failure requeues the batch's blobs for the next round.  The
arguments after the group are the running `totalBatchIdx`, uploaded names,
`fatalError`, and requeued blobs. -/
def processBatches (net : Nat → BatchNet) :
    List (List Blob) → Nat → List (List Char) → Option String → List Blob →
      Nat × List (List Char) × Option String × List Blob
  | [], idx, up, ft, fl => (idx, up, ft, fl)
  | batch :: rest, idx, up, ft, fl =>
    let r := uploadBatch (net (idx + 1))
    if r.success then processBatches net rest (idx + 1) (up ++ r.blobNames) ft fl
    else if r.fatal then processBatches net rest (idx + 1) up r.error fl
    else processBatches net rest (idx + 1) up ft (fl ++ batch)

/-- One concurrency group applied to the loop state. -/
def processGroup (net : Nat → BatchNet) (st : UploadLoopState) (fl : List Blob)
    (group : List (List Blob)) : UploadLoopState × List Blob :=
  let out := processBatches net group st.totalBatchIdx st.uploaded st.fatalError fl
  ({ st with totalBatchIdx := out.1, uploaded := out.2.1, fatalError := out.2.2.1 },
   out.2.2.2)

/-- The `for (let i = 0; …; i += strategy.concurrency)` dispatch loop of
one round (lines 506-544): groups are dispatched in order, and the loop
breaks before dispatching the next group once `fatalError` is set.  The
second component accumulates this round's requeued blobs. -/
def runGroups (net : Nat → BatchNet) :
    List (List (List Blob)) → UploadLoopState → List Blob →
      UploadLoopState × List Blob
  | [], st, fl => (st, fl)
  | g :: gs, st, fl =>
    if st.fatalError.isSome then (st, fl)
    else
      let out := processGroup net st fl g
      runGroups net gs out.1 out.2

/-- The batch size a round uses (lines 486-489): the strategy's size on
round 0, halved (floored at 5) on every retry round. -/
def roundBatchSize (st : UploadLoopState) : Nat :=
  if st.retryRound > 0 then max 5 (st.currentBatchSize / 2)
  else st.currentBatchSize

/-- One round's group dispatch (lines 492-544): the pending blobs are
re-batched at the round's batch size, the batches are grouped by the
strategy's concurrency, and the groups are dispatched in order. -/
def roundGroupsOutcome (net : Nat → BatchNet) (concurrency : Nat)
    (st : UploadLoopState) : UploadLoopState × List Blob :=
  runGroups net (chunkList concurrency (chunkList (roundBatchSize st) st.pending))
    { st with currentBatchSize := roundBatchSize st } []

/-- The loop state entering the next round (lines 546-548): this round's
failures become the pending set and the round counter advances. -/
def nextRoundState (net : Nat → BatchNet) (concurrency : Nat)
    (st : UploadLoopState) : UploadLoopState :=
  { (roundGroupsOutcome net concurrency st).1 with
    pending := (roundGroupsOutcome net concurrency st).2,
    retryRound := (roundGroupsOutcome net concurrency st).1.retryRound + 1 }

/-- The `while (pendingBlobs.length > 0 && retryRound < maxRetryRounds &&
!fatalError)` round loop (lines 484-549): each round halves the batch size
(floored at 5) after the first, re-batches the pending blobs, dispatches
the groups, and requeues this round's failures as the next round's pending
set.  `fuel` is `maxRetryRounds - retryRound`; the source runs at most
`maxRetryRounds = 3` rounds. -/
def runRounds (net : Nat → BatchNet) (concurrency : Nat) :
    Nat → UploadLoopState → UploadLoopState
  | 0, st => st
  | fuel + 1, st =>
    if st.pending.isEmpty || st.fatalError.isSome then st
    else runRounds net concurrency fuel (nextRoundState net concurrency st)

/-- The `stats` record of an `IndexResult` (`src/index/manager.ts` lines
31-36); `failedCount` stands for the optional failure count the source
reports under `failed_batches` (fatal paths) or `failed_files` (the
partial-success path). -/
structure IndexStats where
  total_blobs : Nat
  existing_blobs : Nat
  new_blobs : Nat
  failedCount : Option Nat
deriving DecidableEq

/-- An `IndexResult` as returned by `indexProject`; the human-readable
`message` field is not modelled. -/
structure IndexResult where
  status : String
  stats : Option IndexStats
deriving DecidableEq

/-- First-occurrence deduplication: the key order of a JavaScript `Map`
(or `Set`) built by inserting the list's elements left to right. -/
def firstDedup : List (List Char) → List (List Char)
  | [] => []
  | h :: t => h :: (firstDedup t).filter (fun x => x != h)

/-- The value `blobHashMap.get(h)` holds after the insertion loop of
`indexProject` (lines 410-414): the last collected blob with hash `h`
(later insertions overwrite earlier values for the same key). -/
def lastBlobWithHash (blobs : List Blob) (h : List Char) : Blob :=
  (blobs.reverse.find?
      (fun b => calculateBlobName b.path b.content == h)).getD ⟨"", ""⟩

/-- Everything a synchronization pass produces: the diffing intermediates,
the final upload-loop state (absent when nothing was uploaded), the
returned `IndexResult`, and the manifest persisted by the pass's final
`saveIndex` (absent when the pass saved nothing). -/
structure IndexRun where
  existingHashes : List (List Char)
  blobsToUpload : List Blob
  finalState : Option UploadLoopState
  result : IndexResult
  persisted : Option (List (List Char))
deriving DecidableEq

/-- The hash list of the collected blobs, in collection order
(`indexProject` lines 410-414). -/
def blobHashes (blobs : List Blob) : List (List Char) :=
  blobs.map fun b => calculateBlobName b.path b.content

/-- The key set `allBlobHashes` of `indexProject` (line 417): the distinct
blob hashes in first-insertion order. -/
def allBlobHashes (blobs : List Blob) : List (List Char) :=
  firstDedup (blobHashes blobs)

/-- `existingHashes` of `indexProject` (lines 418-420): the current hashes
that the loaded manifest already lists. -/
def existingHashesOf (loaded : List (List Char)) (blobs : List Blob) :
    List (List Char) :=
  (allBlobHashes blobs).filter fun h => decide (h ∈ loaded)

/-- `newHashes` of `indexProject` (line 421): the current hashes the
loaded manifest does not list. -/
def newHashesOf (loaded : List (List Char)) (blobs : List Blob) :
    List (List Char) :=
  (allBlobHashes blobs).filter fun h => decide (h ∉ loaded)

/-- `blobsToUpload` of `indexProject` (line 422). -/
def blobsToUploadOf (loaded : List (List Char)) (blobs : List Blob) :
    List Blob :=
  (newHashesOf loaded blobs).map (lastBlobWithHash blobs)

/-- The final state of the upload loop of `indexProject`: round loop
started on the full pending set with the adaptive strategy's batch size,
`maxRetryRounds = 3`. -/
def uploadFinalState (loaded : List (List Char)) (blobs : List Blob)
    (net : Nat → BatchNet) : UploadLoopState :=
  let toUpload := blobsToUploadOf loaded blobs
  runRounds net (getUploadStrategy toUpload.length).concurrency 3
    { pending := toUpload,
      currentBatchSize := (getUploadStrategy toUpload.length).batchSize,
      retryRound := 0, totalBatchIdx := 0, uploaded := [], fatalError := none }

/-- The status classification after the upload loop (`indexProject` lines
562-616), from the existing hashes and the loop's final state. -/
def classifyUploadOutcome (existingHashes : List (List Char))
    (fin : UploadLoopState) : IndexResult :=
  let finalFailedCount := fin.pending.length
  let allBlobNames := existingHashes ++ fin.uploaded
  let fatalWithUploadStats : IndexStats :=
    { total_blobs := allBlobNames.length,
      existing_blobs := existingHashes.length,
      new_blobs := fin.uploaded.length,
      failedCount := some finalFailedCount }
  let fatalExistingOnlyStats : IndexStats :=
    { total_blobs := existingHashes.length,
      existing_blobs := existingHashes.length,
      new_blobs := 0,
      failedCount := some finalFailedCount }
  let normalStats : IndexStats :=
    { total_blobs := allBlobNames.length,
      existing_blobs := existingHashes.length,
      new_blobs := fin.uploaded.length,
      failedCount := if 0 < finalFailedCount then some finalFailedCount else none }
  match fin.fatalError with
  | some _ =>
    if fin.uploaded.isEmpty = false then
      { status := "partial_success", stats := some fatalWithUploadStats }
    else if existingHashes.isEmpty = false then
      { status := "partial_success", stats := some fatalExistingOnlyStats }
    else
      { status := "error", stats := none }
  | none =>
    if 0 < finalFailedCount ∧ fin.uploaded.isEmpty ∧ existingHashes.isEmpty then
      { status := "error", stats := none }
    else
      { status := if finalFailedCount = 0 then "success" else "partial_success",
        stats := some normalStats }

/-- `indexProject` from `src/index/manager.ts` (lines 392-642), as a
function of the collected blob list `blobs` (the output of
`collectFiles`), the manifest `loaded` read by `loadIndex` at the start of
the pass, and the per-batch network oracle `net`.  Mirrors the source's
data flow: an empty collection fails fast (line 401); ids are diffed
against the loaded manifest; new blobs are uploaded through the round
loop; the manifest `existingHashes ++ uploaded` is saved (lines 557-559
and 622-623); and the status is classified as in lines 562-616 and
622-636. -/
def indexProject (loaded : List (List Char)) (blobs : List Blob)
    (net : Nat → BatchNet) : IndexRun :=
  if blobs.isEmpty then
    { existingHashes := [], blobsToUpload := [], finalState := none,
      result := { status := "error", stats := none }, persisted := none }
  else
    let existingHashes := existingHashesOf loaded blobs
    let blobsToUpload := blobsToUploadOf loaded blobs
    if blobsToUpload.isEmpty then
      { existingHashes := existingHashes, blobsToUpload := blobsToUpload,
        finalState := none,
        result := { status := "success",
                    stats := some { total_blobs := existingHashes.length,
                                    existing_blobs := existingHashes.length,
                                    new_blobs := 0, failedCount := none } },
        persisted := some existingHashes }
    else
      let fin := uploadFinalState loaded blobs net
      { existingHashes := existingHashes, blobsToUpload := blobsToUpload,
        finalState := some fin,
        result := classifyUploadOutcome existingHashes fin,
        persisted := some (existingHashes ++ fin.uploaded) }

/-- The retryable-transient error class of the specification (connection
refused, timeout, DNS failure, HTTP status at least 500), additionally
outside the fatal classes `retryRequest` checks first. -/
def isTransient (e : ReqError) : Prop :=
  isRetryable e = true ∧ e.status ≠ some 401 ∧ e.status ≠ some 403 ∧
    isSslError e = false

/-- The internal-consistency contract on a returned `IndexResult`: stats
are present and `total_blobs = existing_blobs + new_blobs`. -/
def StatsAddUp (r : IndexResult) : Prop :=
  match r.stats with
  | none => False
  | some s => s.total_blobs = s.existing_blobs + s.new_blobs

/-! ## Claims -/

/-- C1 (counterexample): the claimed equivalence `id(b1) = id(b2) ↔
b1.path = b2.path ∧ b1.content = b2.content` fails at the concrete blobs
`("ab", "c")` and `("a", "bc")`: the digest input concatenates path and
content, so both blobs hash the same byte string although their paths
differ. -/
theorem calculateBlobName_collision_cex :
    calculateBlobName "ab" "c" = calculateBlobName "a" "bc" ∧
      ¬(("ab" : String) = "a" ∧ ("c" : String) = "bc") := by
  decide

/-- C1 (amended): two blob ids computed by `calculateBlobName` are equal
exactly when the concatenations `path ++ content` are equal; in
particular equal paths and equal contents give equal ids, but equal ids
do not separate the path from the content. -/
theorem calculateBlobName_eq_iff_concat_eq (b1 b2 : Blob) :
    calculateBlobName b1.path b1.content = calculateBlobName b2.path b2.content ↔
      b1.path ++ b1.content = b2.path ++ b2.content := by
  unfold calculateBlobName
  constructor
  · intro h
    exact String.ext (by simpa using h)
  · intro h
    simpa using congrArg String.data h

/-- C7: `getUploadStrategy` is monotone in the pending blob count — batch
size, concurrency, and timeout are all non-decreasing as the count
grows. -/
theorem getUploadStrategy_monotone (m n : Nat) (h : m ≤ n) :
    (getUploadStrategy m).batchSize ≤ (getUploadStrategy n).batchSize ∧
      (getUploadStrategy m).concurrency ≤ (getUploadStrategy n).concurrency ∧
      (getUploadStrategy m).timeout ≤ (getUploadStrategy n).timeout := by
  unfold getUploadStrategy
  split_ifs <;> simp_all <;> omega

/-- C7 witness: the monotonicity theorem applied at 50 ≤ 1000 pending
blobs. -/
theorem getUploadStrategy_monotone_witness :
    50 ≤ 1000 ∧
      ((getUploadStrategy 50).batchSize ≤ (getUploadStrategy 1000).batchSize ∧
        (getUploadStrategy 50).concurrency ≤ (getUploadStrategy 1000).concurrency ∧
        (getUploadStrategy 50).timeout ≤ (getUploadStrategy 1000).timeout) :=
  ⟨by decide, getUploadStrategy_monotone 50 1000 (by decide)⟩

/-- C9 (counterexample): a manifest file whose text is valid JSON but not
an array of string ids — here the number `42` — is corrupt in the claim's
sense, yet `loadIndex` returns the parsed value unvalidated instead of
the empty list. -/
theorem loadIndex_no_validation_cex :
    loadIndex (.readable (.ok (.num 42))) = .num 42 ∧
      JsonValue.isStringArray (.num 42) = false ∧
      loadIndex (.readable (.ok (.num 42))) ≠ .arr [] :=
  ⟨rfl, rfl, fun h => by cases h⟩

/-- C9 (amended): `loadIndex` is total (it never raises) and returns the
empty list when the manifest file is absent, unreadable, or not parseable
as JSON; when the text parses, the parsed value is returned as-is with no
validation of its shape. -/
theorem loadIndex_amended :
    loadIndex .absent = .arr [] ∧
      loadIndex .unreadable = .arr [] ∧
      (∀ msg : String, loadIndex (.readable (.error msg)) = .arr []) ∧
      (∀ v : JsonValue, loadIndex (.readable (.ok v)) = v) :=
  ⟨rfl, rfl, fun _ => rfl, fun _ => rfl⟩

/-- The splitter loop loses nothing: flattening its output restores the
accumulator followed by the unscanned text. -/
theorem splitLinesAux_flatten (acc s : List Char) :
    (splitLinesAux acc s).flatten = acc.reverse ++ s := by
  induction acc, s using splitLinesAux.induct <;>
    simp_all [splitLinesAux, List.isEmpty_iff]

/-- Flattening the line list of a text restores the text. -/
theorem splitLines_flatten (content : String) :
    (splitLines content).flatten = content.data := by
  simpa using splitLinesAux_flatten [] content.data

/-- Flattening `n` consecutive `take k`-slices of a list restores the
list, provided `n * k` covers its length. -/
theorem flatten_range_take_drop {α : Type} (k : Nat) :
    ∀ (n : Nat) (l : List α), l.length ≤ n * k →
      ((List.range n).map fun i => (l.drop (i * k)).take k).flatten = l := by
  intro n
  induction n with
  | zero =>
    intro l h
    simp only [Nat.zero_mul, Nat.le_zero, List.length_eq_zero] at h
    simp [h]
  | succ n ih =>
    intro l h
    rw [List.range_succ_eq_map, List.map_cons, List.map_map, List.flatten_cons]
    have h2 : ((List.range n).map ((fun i => (l.drop (i * k)).take k) ∘ Nat.succ)) =
        (List.range n).map fun i => ((l.drop k).drop (i * k)).take k := by
      apply List.map_congr_left
      intro i _
      simp only [Function.comp]
      rw [List.drop_drop]
      have he : i.succ * k = k + k * i := by
        rw [Nat.succ_mul]; ring
      rw [he, Nat.mul_comm k i]
    have hlen : (l.drop k).length ≤ n * k := by
      have hk1 : (n + 1) * k = n * k + k := by ring
      simp only [List.length_drop]
      omega
    rw [h2, ih (l.drop k) hlen]
    simp [List.take_append_drop]

/-- `ceilDiv L k` chunks of size `k` cover `L` elements. -/
theorem le_ceilDiv_mul (L k : Nat) (hk : 0 < k) : L ≤ ceilDiv L k * k := by
  rcases Nat.eq_zero_or_pos L with h0 | hL
  · simp [h0]
  · unfold ceilDiv
    have h1 : L + k - 1 = (L - 1) + k := by omega
    rw [h1, Nat.add_div_right _ hk]
    have h3 := (Nat.div_lt_iff_lt_mul hk).mp (Nat.lt_succ_self ((L - 1) / k))
    simp only [Nat.succ_eq_add_one] at h3
    have h4 : ((L - 1) / k + 1) * k = ((L - 1) / k) * k + k := by ring
    omega

/-- The character data of a string fold-append. -/
theorem data_foldl_append (l : List String) (s : String) :
    (l.foldl (fun r t => r ++ t) s).data = s.data ++ (l.map String.data).flatten := by
  induction l generalizing s with
  | nil => simp
  | cons hd tl ih => simp [List.foldl_cons, ih, String.data_append]

/-- The character data of `String.join`. -/
theorem data_join (l : List String) :
    (String.join l).data = (l.map String.data).flatten := by
  show (l.foldl (fun r t => r ++ t) "").data = _
  simp [data_foldl_append]

/-- C3: for every text and every `maxLinesPerBlob ≥ 1`, concatenating the
`content` fields of the blobs produced by `splitFileContent`, in order,
reproduces the original text exactly. -/
theorem splitFileContent_roundtrip (k : Nat) (hk : 1 ≤ k)
    (filePath content : String) :
    String.join ((splitFileContent k filePath content).map Blob.content) = content := by
  apply String.ext
  rw [data_join]
  unfold splitFileContent
  by_cases h : (splitLines content).length ≤ k
  · simp [h]
  · simp only [h, if_false, List.map_map, List.map_map]
    show (((List.range (ceilDiv (splitLines content).length k)).map
        fun i => (((splitLines content).drop (i * k)).take k).flatten).flatten = content.data)
    have hcomp : (fun i => (((splitLines content).drop (i * k)).take k).flatten) =
        (List.flatten ∘ fun i => ((splitLines content).drop (i * k)).take k) := rfl
    rw [hcomp, ← List.map_map, ← List.flatten_flatten]
    rw [flatten_range_take_drop k (ceilDiv (splitLines content).length k)
      (splitLines content) (le_ceilDiv_mul (splitLines content).length k (by omega))]
    exact splitLines_flatten content

/-- C3 witness: the round-trip theorem applied at `maxLinesPerBlob = 2`
and a text mixing all three line terminators. -/
theorem splitFileContent_roundtrip_witness :
    1 ≤ 2 ∧
      String.join ((splitFileContent 2 "p" "a\nb\r\nc\rd\ne").map Blob.content) =
        "a\nb\r\nc\rd\ne" :=
  ⟨by decide, splitFileContent_roundtrip 2 (by decide) "p" "a\nb\r\nc\rd\ne"⟩

/-- C4: with `L` the number of lines the splitter finds, a text with
`L ≤ k` becomes one blob carrying the original path and whole text; a
text with `L > k` becomes exactly `ceil(L/k)` blobs, the `i`-th
(0-indexed here) named `path#chunk\x7bi+1\x7dof\x7bn\x7d` and carrying the `i`-th run
of at most `k` consecutive lines. -/
theorem splitFileContent_chunk_shape (k : Nat) (hk : 1 ≤ k)
    (filePath content : String) :
    ((splitLines content).length ≤ k →
      splitFileContent k filePath content = [{ path := filePath, content := content }]) ∧
    (k < (splitLines content).length →
      (splitFileContent k filePath content).length = ceilDiv (splitLines content).length k ∧
      ∀ i, i < ceilDiv (splitLines content).length k →
        (splitFileContent k filePath content)[i]? =
          some { path := filePath ++ "#chunk" ++ toString (i + 1) ++ "of" ++
                   toString (ceilDiv (splitLines content).length k),
                 content := String.mk (((splitLines content).drop (i * k)).take k).flatten } ∧
        (((splitLines content).drop (i * k)).take k).length ≤ k) := by
  constructor
  · intro h
    simp [splitFileContent, h]
  · intro h
    have h' : ¬(splitLines content).length ≤ k := by omega
    refine ⟨by simp [splitFileContent, h'], ?_⟩
    intro i hi
    refine ⟨?_, ?_⟩
    · simp only [splitFileContent, h', if_false, List.getElem?_map,
        List.getElem?_range hi, Option.map_some]
      rfl
    · rw [List.length_take]
      exact Nat.min_le_left _ _

/-- C4 witness: the chunk-shape theorem applied at `k = 2` to a five-line
text (three chunks; the middle chunk inspected) and, through its other
branch, at `k = 9` to the same text (single blob). -/
theorem splitFileContent_chunk_shape_witness :
    (splitFileContent 2 "p" "a\nb\nc\nd\ne").length =
        ceilDiv (splitLines "a\nb\nc\nd\ne").length 2 ∧
      ((splitFileContent 2 "p" "a\nb\nc\nd\ne")[1]? =
        some { path := "p" ++ "#chunk" ++ toString (1 + 1) ++ "of" ++
                 toString (ceilDiv (splitLines "a\nb\nc\nd\ne").length 2),
               content := String.mk
                 (((splitLines "a\nb\nc\nd\ne").drop (1 * 2)).take 2).flatten } ∧
        (((splitLines "a\nb\nc\nd\ne").drop (1 * 2)).take 2).length ≤ 2) ∧
      splitFileContent 9 "p" "a\nb\nc\nd\ne" =
        [{ path := "p", content := "a\nb\nc\nd\ne" }] := by
  have h2 := splitFileContent_chunk_shape 2 (by decide) "p" "a\nb\nc\nd\ne"
  have h9 := splitFileContent_chunk_shape 9 (by decide) "p" "a\nb\nc\nd\ne"
  exact ⟨(h2.2 (by decide)).1, (h2.2 (by decide)).2 1 (by decide), h9.1 (by decide)⟩

/-- A pattern with no `*` and no `?` matches itself: every character
other than `.` is left as a literal, and a `.` in the pattern accepts the
`.` in the string. -/
theorem regexAccepts_self (l : List Char) (h : ∀ x ∈ l, x ≠ '*' ∧ x ≠ '?') :
    regexAccepts (patternToRegex l) l = true := by
  induction l with
  | nil => rfl
  | cons c t ih =>
    obtain ⟨hc1, hc2⟩ := h c (List.mem_cons_self c t)
    have ht := fun x hx => h x (List.mem_cons_of_mem c hx)
    have hpr : patternToRegex (c :: t) =
        (if c = '*' then RegexTok.anyStar
         else if c = '?' then RegexTok.anyOne
         else if c = '.' then RegexTok.anyOne
         else RegexTok.lit c) :: patternToRegex t := rfl
    by_cases hdot : c = '.'
    · subst hdot
      rw [hpr, if_neg hc1, if_neg hc2, if_pos rfl]
      show (regexDotMatches '.' && regexAccepts (patternToRegex t) t) = true
      rw [ih ht]
      decide
    · rw [hpr, if_neg hc1, if_neg hc2, if_neg hdot]
      show (c == c && regexAccepts (patternToRegex t) t) = true
      rw [ih ht]
      simp

/-- An unescaped `.` in a pattern accepts any regex-dot character in its
position, the surrounding pattern text matching itself. -/
theorem regexAccepts_dot_wildcard (a b : List Char) (c : Char)
    (ha : ∀ x ∈ a, x ≠ '*' ∧ x ≠ '?') (hb : ∀ x ∈ b, x ≠ '*' ∧ x ≠ '?')
    (hc : regexDotMatches c = true) :
    regexAccepts (patternToRegex (a ++ '.' :: b)) (a ++ c :: b) = true := by
  induction a with
  | nil =>
    have hpr : patternToRegex ('.' :: b) = RegexTok.anyOne :: patternToRegex b := rfl
    simp only [List.nil_append, hpr]
    show (regexDotMatches c && regexAccepts (patternToRegex b) b) = true
    rw [hc, regexAccepts_self b hb]
    rfl
  | cons x a' ih =>
    obtain ⟨hx1, hx2⟩ := ha x (List.mem_cons_self x a')
    have ha' := fun y hy => ha y (List.mem_cons_of_mem x hy)
    have hpr : patternToRegex (x :: (a' ++ '.' :: b)) =
        (if x = '*' then RegexTok.anyStar
         else if x = '?' then RegexTok.anyOne
         else if x = '.' then RegexTok.anyOne
         else RegexTok.lit x) :: patternToRegex (a' ++ '.' :: b) := rfl
    show regexAccepts (patternToRegex (x :: (a' ++ '.' :: b))) (x :: (a' ++ c :: b)) = true
    rw [hpr, if_neg hx1, if_neg hx2]
    by_cases hdot : x = '.'
    · rw [if_pos hdot]
      show (regexDotMatches x &&
        regexAccepts (patternToRegex (a' ++ '.' :: b)) (a' ++ c :: b)) = true
      rw [ih ha', hdot]
      decide
    · rw [if_neg hdot]
      show (x == x &&
        regexAccepts (patternToRegex (a' ++ '.' :: b)) (a' ++ c :: b)) = true
      rw [ih ha']
      simp

/-- C10: `matchPattern` translates only `*` and `?` and escapes nothing,
so a literal `.` in an exclusion pattern keeps its regex meaning and
matches any single (non-line-terminator) character in that position; in
particular `matchPattern("agit", ".git")` is true, and `shouldExclude`
excludes the path `agit` under the default `.git` entry. -/
theorem matchPattern_dot_unescaped (a b : List Char) (c : Char)
    (ha : ∀ x ∈ a, x ≠ '*' ∧ x ≠ '?') (hb : ∀ x ∈ b, x ≠ '*' ∧ x ≠ '?')
    (hc : regexDotMatches c = true) :
    matchPattern (String.mk (a ++ c :: b)) (String.mk (a ++ '.' :: b)) = true ∧
      matchPattern "agit" ".git" = true ∧
      shouldExclude [".git"] "agit" = true := by
  refine ⟨?_, by decide, by decide⟩
  exact regexAccepts_dot_wildcard a b c ha hb hc

/-- C10 witness: the wildcard theorem applied at the claim's own example,
pattern `.git` against the path segment `agit`. -/
theorem matchPattern_dot_unescaped_witness :
    matchPattern (String.mk ([] ++ 'a' :: ['g', 'i', 't']))
        (String.mk ([] ++ '.' :: ['g', 'i', 't'])) = true ∧
      matchPattern "agit" ".git" = true ∧
      shouldExclude [".git"] "agit" = true :=
  matchPattern_dot_unescaped [] ['g', 'i', 't'] 'a'
    (by decide) (by decide) (by decide)


/-- The retry loop makes at most `attempt + fuel` attempts in total. -/
theorem retryGo_attempts_le {α : Type} (f : Nat → Except ReqError α) (m d : Nat) :
    ∀ (fuel attempt : Nat) (delays : List Nat),
      (retryGo f m d attempt delays fuel).attempts ≤ attempt + fuel := by
  intro fuel
  induction fuel with
  | zero => intro a dl; simp [retryGo, RetryOut.attempts]
  | succ n ih =>
    intro a dl
    simp only [retryGo]
    cases hf : f a with
    | ok v => simp only [RetryOut.attempts]; omega
    | error e =>
      dsimp only
      split_ifs with h1 h2 h3 h4
      · simp only [RetryOut.attempts]; omega
      · simp only [RetryOut.attempts]; omega
      · simp only [RetryOut.attempts]; omega
      · simp only [RetryOut.attempts]; omega
      · have := ih (a + 1) (dl ++ [d * 2 ^ a])
        omega

/-- When every remaining attempt fails with a retryable-transient error,
the loop runs out its fuel: it sleeps `d * 2 ^ k` after the `k`-th failed
attempt and finally throws the last error's friendly message. -/
theorem retryGo_all_transient {α : Type} (f : Nat → Except ReqError α)
    (e : Nat → ReqError) (m d : Nat)
    (hf : ∀ k, k < m → f k = .error (e k)) (ht : ∀ k, k < m → isTransient (e k)) :
    ∀ (fuel attempt : Nat) (delays : List Nat), attempt + fuel = m →
      retryGo f m d attempt delays fuel =
        .err (if fuel = 0 then "All retries failed" else friendlyMessage (e (m - 1))) m
          (delays ++ (List.range (fuel - 1)).map fun j => d * 2 ^ (attempt + j)) := by
  intro fuel
  induction fuel with
  | zero =>
    intro a dl hm
    simp only [retryGo, if_pos rfl]
    rw [show a = m from by omega]
    simp
  | succ n ih =>
    intro a dl hm
    have ha : a < m := by omega
    have hfa := hf a ha
    obtain ⟨hr, h401, h403, hssl⟩ := ht a ha
    simp only [retryGo, hfa]
    rw [if_neg h401, if_neg h403, if_neg (by simp [hssl])]
    by_cases hlast : a = m - 1
    · have hn : n = 0 := by omega
      subst hn
      rw [if_pos (Or.inr hlast)]
      simp only [Nat.add_sub_cancel, List.range_zero, List.map_nil, List.append_nil]
      rw [hlast]
      have hm1 : m - 1 + 1 = m := by omega
      rw [hm1]
      rfl
    · have hcond : ¬(isRetryable (e a) = false ∨ a = m - 1) := by
        push_neg
        exact ⟨by simp [hr], hlast⟩
      rw [if_neg hcond]
      have hn : 0 < n := by omega
      rw [ih (a + 1) (dl ++ [d * 2 ^ a]) (by omega)]
      have hmsg : (if n = 0 then "All retries failed" else friendlyMessage (e (m - 1))) =
          (if n + 1 = 0 then "All retries failed" else friendlyMessage (e (m - 1))) := by
        rw [if_neg (by omega), if_neg (by omega)]
      rw [hmsg]
      congr 1
      rw [List.append_assoc]
      congr 1
      obtain ⟨n', rfl⟩ : ∃ n', n = n' + 1 := ⟨n - 1, by omega⟩
      simp only [Nat.add_sub_cancel]
      rw [List.range_succ_eq_map, List.map_cons, List.map_map, List.singleton_append]
      congr 1
      apply List.map_congr_left
      intro j _
      simp only [Function.comp]
      have hexp : a + 1 + j = a + j.succ := by omega
      rw [hexp]

/-- C8: under retryable-transient failures (connection refused, timeout,
DNS failure, HTTP status at least 500), `retryRequest` makes at most
`maxRetries` attempts — exactly `maxRetries` when every attempt fails —
with delay `retryDelay * 2 ^ k` before the attempt following the `k`-th
failed one, and finally surfaces the error as a thrown message instead of
retrying further. -/
theorem retryRequest_transient_backoff {α : Type} (f : Nat → Except ReqError α)
    (e : Nat → ReqError) (m d : Nat)
    (hf : ∀ k, k < m → f k = .error (e k)) (ht : ∀ k, k < m → isTransient (e k)) :
    retryRequest f m d =
      .err (if m = 0 then "All retries failed" else friendlyMessage (e (m - 1))) m
        ((List.range (m - 1)).map fun k => d * 2 ^ k) ∧
    ∀ g : Nat → Except ReqError α, (retryRequest g m d).attempts ≤ m := by
  constructor
  · have h := retryGo_all_transient f e m d hf ht m 0 [] (by omega)
    unfold retryRequest
    rw [h]
    simp only [List.nil_append]
    congr 1
    apply List.map_congr_left
    intro j _
    rw [Nat.zero_add]
  · intro g
    have := retryGo_attempts_le g m d m 0 []
    unfold retryRequest
    omega

/-- C8 witness: `retryRequest` on an operation that always times out,
with the source defaults `maxRetries = 3`, `retryDelay = 1000`: three
attempts, delays `[1000, 2000]`, and a thrown timeout message. -/
theorem retryRequest_transient_backoff_witness :
    retryRequest (fun _ => (.error ⟨some "ETIMEDOUT", none, "timeout"⟩ : Except ReqError Nat)) 3 1000 =
      .err (if 3 = 0 then "All retries failed"
            else friendlyMessage ⟨some "ETIMEDOUT", none, "timeout"⟩) 3
        ((List.range 2).map fun k => 1000 * 2 ^ k) ∧
    (retryRequest (fun _ => (.error ⟨some "ETIMEDOUT", none, "timeout"⟩ : Except ReqError Nat)) 3 1000).attempts ≤ 3 := by
  have h := retryRequest_transient_backoff
    (fun _ => (.error ⟨some "ETIMEDOUT", none, "timeout"⟩ : Except ReqError Nat))
    (fun _ => ⟨some "ETIMEDOUT", none, "timeout"⟩) 3 1000
    (fun _ _ => rfl)
    (fun _ _ =>
      show isTransient ⟨some "ETIMEDOUT", none, "timeout"⟩ from
        ⟨by decide, by decide, by decide, by decide⟩)
  exact ⟨h.1, h.2 _⟩


/-- Membership is unchanged by first-occurrence deduplication. -/
theorem mem_firstDedup {a : List Char} {l : List (List Char)} :
    a ∈ firstDedup l ↔ a ∈ l := by
  induction l with
  | nil => simp [firstDedup]
  | cons h t ih =>
    simp only [firstDedup, List.mem_cons, List.mem_filter, bne_iff_ne]
    constructor
    · rintro (rfl | ⟨hmem, _⟩)
      · exact .inl rfl
      · exact .inr (ih.mp hmem)
    · rintro (rfl | hmem)
      · exact .inl rfl
      · by_cases hca : a = h
        · exact .inl hca
        · exact .inr ⟨ih.mpr hmem, hca⟩

/-- C2 (counterexample): a pass can shrink the persisted manifest.  With
loaded manifest `["q".data]` and one collected blob hashing to `"ab".data`,
the pass persists `["x".data]` (the server-confirmed name) and the stale
id `"q".data` is gone: `existingHashes` keeps only loaded ids that match a
currently collected hash. -/
theorem indexProject_manifest_shrinks_cex :
    (['q'] : List Char) ∈ [(['q'] : List Char)] ∧
      (indexProject [['q']] [⟨"a", "b"⟩] (fun _ => .ok [['x']])).persisted = some [['x']] ∧
      (['q'] : List Char) ∉ [(['x'] : List Char)] := by
  refine ⟨by decide, by decide, by decide⟩

/-- C2 (amended): a loaded manifest id survives the pass exactly when it
still matters — every id that is both in the loaded manifest and among the
hashes of the currently collected blobs is in the manifest persisted at
the end of the pass; ids of files no longer on disk are dropped (see the
counterexample). -/
theorem indexProject_retains_current_loaded_ids (loaded : List (List Char))
    (blobs : List Blob) (net : Nat → BatchNet) (id : List Char)
    (hl : id ∈ loaded) (hc : id ∈ blobHashes blobs) :
    (indexProject loaded blobs net).persisted.isSome = true ∧
      id ∈ (indexProject loaded blobs net).persisted.getD [] := by
  have hne : blobs.isEmpty = false := by
    cases blobs
    · simp [blobHashes] at hc
    · rfl
  have hex : id ∈ existingHashesOf loaded blobs := by
    simp only [existingHashesOf, allBlobHashes, List.mem_filter]
    exact ⟨mem_firstDedup.mpr hc, by simpa using hl⟩
  unfold indexProject
  simp only [hne, Bool.false_eq_true, if_false]
  by_cases hup : (blobsToUploadOf loaded blobs).isEmpty
  · simp only [hup, if_true]
    exact ⟨rfl, hex⟩
  · simp only [hup, Bool.false_eq_true, if_false]
    exact ⟨rfl, List.mem_append_left _ hex⟩

/-- C2 witness: the retention theorem applied to a pass whose single
collected blob is already in the loaded manifest. -/
theorem indexProject_retains_current_loaded_ids_witness :
    (indexProject [calculateBlobName "a" "b"] [⟨"a", "b"⟩]
        (fun _ => .ok [['x']])).persisted.isSome = true ∧
      calculateBlobName "a" "b" ∈
        (indexProject [calculateBlobName "a" "b"] [⟨"a", "b"⟩]
          (fun _ => .ok [['x']])).persisted.getD [] :=
  indexProject_retains_current_loaded_ids _ _ _ _ (by decide) (by decide)

/-- Every non-`error` outcome of the post-upload classification carries
stats with `total = existing + new`. -/
theorem classifyUploadOutcome_stats_add_up (E : List (List Char))
    (fin : UploadLoopState)
    (h : (classifyUploadOutcome E fin).status ≠ "error") :
    StatsAddUp (classifyUploadOutcome E fin) := by
  unfold classifyUploadOutcome at h ⊢
  cases hf : fin.fatalError with
  | some err =>
    simp only [hf] at h ⊢
    split_ifs at h ⊢ <;> simp_all [StatsAddUp, List.length_append]
  | none =>
    simp only [hf] at h ⊢
    split_ifs at h ⊢ <;> simp_all [StatsAddUp, List.length_append]

/-- C6: every `IndexResult` returned by `indexProject` whose status is
not `error` carries stats satisfying
`total_blobs = existing_blobs + new_blobs`. -/
theorem indexProject_stats_add_up (loaded : List (List Char)) (blobs : List Blob)
    (net : Nat → BatchNet)
    (h : (indexProject loaded blobs net).result.status ≠ "error") :
    StatsAddUp (indexProject loaded blobs net).result := by
  unfold indexProject at h ⊢
  by_cases h0 : blobs.isEmpty
  · simp [h0] at h
  · simp only [h0, Bool.false_eq_true, if_false] at h ⊢
    by_cases h1 : (blobsToUploadOf loaded blobs).isEmpty
    · simp only [h1, if_true] at h ⊢
      simp [StatsAddUp]
    · simp only [h1, Bool.false_eq_true, if_false] at h ⊢
      exact classifyUploadOutcome_stats_add_up _ _ h

/-- C6 witness: the stats-consistency theorem applied to a fresh pass
uploading one blob. -/
theorem indexProject_stats_add_up_witness :
    (indexProject [] [⟨"a", "b"⟩] (fun _ => .ok [['x']])).result.status ≠ "error" ∧
      StatsAddUp (indexProject [] [⟨"a", "b"⟩] (fun _ => .ok [['x']])).result :=
  ⟨by decide, indexProject_stats_add_up [] [⟨"a", "b"⟩] (fun _ => .ok [['x']]) (by decide)⟩

/-- A batch whose every POST is rejected with HTTP 401 is fatal:
`retryRequest` throws the token message without retrying, and
`uploadBatch` classifies that message as fatal. -/
theorem uploadBatch_fatal_401 (e : ReqError) (h : e.status = some 401) :
    uploadBatch (.fail e) =
      { success := false, blobNames := [], fatal := true,
        error := some tokenInvalidMsg } := by
  unfold uploadBatch retryRequest retryGo
  simp only [h, if_pos rfl]
  have : isFatalErrorMessage tokenInvalidMsg = true := by decide
  simp [this]

/-- A fatal batch result always carries an error message. -/
theorem uploadBatch_error_isSome_of_fatal (b : BatchNet)
    (h : (uploadBatch b).fatal = true) : (uploadBatch b).error.isSome = true := by
  unfold uploadBatch at h ⊢
  cases hr : retryRequest
      (fun _ => match b with | .ok names => .ok names | .fail e => .error e) 3 1000 with
  | ok names n dl =>
    rw [hr] at h
    by_cases hn : names.isEmpty <;> simp [hn] at h
  | err msg n dl =>
    simp

/-- A fatal batch result is never a success. -/
theorem uploadBatch_not_success_of_fatal (b : BatchNet)
    (h : (uploadBatch b).fatal = true) : (uploadBatch b).success = false := by
  unfold uploadBatch at h ⊢
  cases hr : retryRequest
      (fun _ => match b with | .ok names => .ok names | .fail e => .error e) 3 1000 with
  | ok names n dl =>
    rw [hr] at h
    by_cases hn : names.isEmpty <;> simp [hn] at h
  | err msg n dl =>
    simp

/-- Dispatching a group advances `totalBatchIdx` by the group's size. -/
theorem processBatches_idx (net : Nat → BatchNet) :
    ∀ (g : List (List Blob)) (idx : Nat) (up : List (List Char))
      (ft : Option String) (fl : List Blob),
      (processBatches net g idx up ft fl).1 = idx + g.length := by
  intro g
  induction g with
  | nil => intro idx up ft fl; simp [processBatches]
  | cons batch rest ih =>
    intro idx up ft fl
    simp only [processBatches]
    split_ifs <;> rw [ih] <;> simp <;> omega

/-- Once `fatalError` is set it stays set through the rest of a group's
result fold (later successes do not clear it, later fatal results only
overwrite it with another message). -/
theorem processBatches_fatal_mono (net : Nat → BatchNet) :
    ∀ (g : List (List Blob)) (idx : Nat) (up : List (List Char))
      (ft : Option String) (fl : List Blob), ft.isSome = true →
      (processBatches net g idx up ft fl).2.2.1.isSome = true := by
  intro g
  induction g with
  | nil => intro idx up ft fl h; simpa [processBatches] using h
  | cons batch rest ih =>
    intro idx up ft fl h
    simp only [processBatches]
    split_ifs with h1 h2
    · exact ih _ _ _ _ h
    · exact ih _ _ _ _ (uploadBatch_error_isSome_of_fatal _ h2)
    · exact ih _ _ _ _ h

/-- If the `j`-th batch of a dispatched group is fatal (for instance,
rejected with 401), the group's result fold ends with `fatalError` set. -/
theorem processBatches_fatal_of_401 (net : Nat → BatchNet) :
    ∀ (g : List (List Blob)) (idx : Nat) (up : List (List Char))
      (ft : Option String) (fl : List Blob) (j : Nat), j < g.length →
      (uploadBatch (net (idx + j + 1))).fatal = true →
      (processBatches net g idx up ft fl).2.2.1.isSome = true := by
  intro g
  induction g with
  | nil => intro idx up ft fl j hj; simp at hj
  | cons batch rest ih =>
    intro idx up ft fl j hj hfat
    simp only [processBatches]
    cases j with
    | zero =>
      have hns := uploadBatch_not_success_of_fatal _ hfat
      rw [if_neg (by simp [hns]), if_pos hfat]
      exact processBatches_fatal_mono net _ _ _ _ _
        (uploadBatch_error_isSome_of_fatal _ hfat)
    | succ j' =>
      have hj' : j' < rest.length := by simpa using hj
      have hfat' : (uploadBatch (net (idx + 1 + j' + 1))).fatal = true := by
        have : idx + 1 + j' + 1 = idx + (j' + 1) + 1 := by omega
        rw [this]; exact hfat
      split_ifs <;> exact ih _ _ _ _ _ hj' hfat'

/-- C5 structural fact: with `fatalError` set, the group-dispatch loop
starts no further group — it returns its state unchanged. -/
theorem runGroups_fatal_stop (net : Nat → BatchNet) :
    ∀ (gs : List (List (List Blob))) (st : UploadLoopState) (fl : List Blob),
      st.fatalError.isSome = true → runGroups net gs st fl = (st, fl) := by
  intro gs st fl h
  cases gs with
  | nil => rfl
  | cons g gs' => simp [runGroups, h]

/-- If a batch numbered in `(st.totalBatchIdx, final.totalBatchIdx]` —
i.e. actually dispatched by this group loop — is fatal, the loop ends with
`fatalError` set. -/
theorem runGroups_fatal_of_401 (net : Nat → BatchNet) (i : Nat)
    (hfat : (uploadBatch (net i)).fatal = true) :
    ∀ (gs : List (List (List Blob))) (st : UploadLoopState) (fl : List Blob),
      st.totalBatchIdx < i → i ≤ (runGroups net gs st fl).1.totalBatchIdx →
      (runGroups net gs st fl).1.fatalError.isSome = true := by
  intro gs
  induction gs with
  | nil =>
    intro st fl h1 h2
    simp only [runGroups] at h2
    omega
  | cons g gs' ih =>
    intro st fl h1 h2
    by_cases hf : st.fatalError.isSome = true
    · rw [runGroups_fatal_stop net _ _ _ hf]
      exact hf
    · rw [show runGroups net (g :: gs') st fl =
          runGroups net gs' (processGroup net st fl g).1 (processGroup net st fl g).2
        from by simp [runGroups, hf]] at h2 ⊢
      have hidx : (processGroup net st fl g).1.totalBatchIdx =
          st.totalBatchIdx + g.length := by
        simp [processGroup, processBatches_idx]
      by_cases hle : i ≤ (processGroup net st fl g).1.totalBatchIdx
      · have hj : i - st.totalBatchIdx - 1 < g.length := by omega
        have hnet : st.totalBatchIdx + (i - st.totalBatchIdx - 1) + 1 = i := by omega
        have hfs : (processGroup net st fl g).1.fatalError.isSome = true := by
          simp only [processGroup]
          exact processBatches_fatal_of_401 net g st.totalBatchIdx st.uploaded
            st.fatalError fl (i - st.totalBatchIdx - 1) hj (by rw [hnet]; exact hfat)
        rw [runGroups_fatal_stop net _ _ _ hfs]
        exact hfs
      · exact ih _ _ (by omega) h2

/-- C5 structural fact: with `fatalError` set, the round loop starts no
further round — it returns its state unchanged. -/
theorem runRounds_fatal_stop (net : Nat → BatchNet) (conc : Nat) :
    ∀ (fuel : Nat) (st : UploadLoopState), st.fatalError.isSome = true →
      runRounds net conc fuel st = st := by
  intro fuel st h
  cases fuel with
  | zero => rfl
  | succ n => simp [runRounds, h]

/-- One unfolding of the round loop when the loop condition holds. -/
theorem runRounds_step (net : Nat → BatchNet) (conc fuel : Nat)
    (st : UploadLoopState)
    (h : (st.pending.isEmpty || st.fatalError.isSome) = false) :
    runRounds net conc (fuel + 1) st =
      runRounds net conc fuel (nextRoundState net conc st) := by
  simp [runRounds, h]

/-- Entering the next round keeps the batch counter. -/
theorem nextRoundState_idx (net : Nat → BatchNet) (conc : Nat)
    (st : UploadLoopState) :
    (nextRoundState net conc st).totalBatchIdx =
      (roundGroupsOutcome net conc st).1.totalBatchIdx := rfl

/-- Entering the next round keeps the fatal error. -/
theorem nextRoundState_fatal (net : Nat → BatchNet) (conc : Nat)
    (st : UploadLoopState) :
    (nextRoundState net conc st).fatalError =
      (roundGroupsOutcome net conc st).1.fatalError := rfl

/-- If a batch dispatched somewhere in the round loop's run is fatal,
the loop's final state has `fatalError` set. -/
theorem runRounds_fatal_of_401 (net : Nat → BatchNet) (conc i : Nat)
    (hfat : (uploadBatch (net i)).fatal = true) :
    ∀ (fuel : Nat) (st : UploadLoopState),
      st.totalBatchIdx < i → i ≤ (runRounds net conc fuel st).totalBatchIdx →
      (runRounds net conc fuel st).fatalError.isSome = true := by
  intro fuel
  induction fuel with
  | zero =>
    intro st h1 h2
    simp only [runRounds] at h2
    omega
  | succ n ih =>
    intro st h1 h2
    by_cases hstop : (st.pending.isEmpty || st.fatalError.isSome) = true
    · rw [show runRounds net conc (n + 1) st = st from by simp [runRounds, hstop]] at h2
      omega
    · rw [Bool.not_eq_true] at hstop
      rw [runRounds_step net conc n st hstop] at h2 ⊢
      by_cases hle : i ≤ (roundGroupsOutcome net conc st).1.totalBatchIdx
      · have hfs : (roundGroupsOutcome net conc st).1.fatalError.isSome = true := by
          unfold roundGroupsOutcome at hle ⊢
          exact runGroups_fatal_of_401 net i hfat _ _ _ (by simpa using h1) hle
        have hnext : (nextRoundState net conc st).fatalError.isSome = true := by
          rw [nextRoundState_fatal]; exact hfs
        rw [runRounds_fatal_stop net conc n _ hnext]
        exact hnext
      · exact ih _ (by rw [nextRoundState_idx]; omega) h2

/-- With a fatal error recorded, the classification returns
`partial_success` exactly when something existing or newly uploaded was
preserved, `error` otherwise, and never `success`. -/
theorem classifyUploadOutcome_fatal_status (E : List (List Char))
    (fin : UploadLoopState) (h : fin.fatalError.isSome = true) :
    (classifyUploadOutcome E fin).status =
      (if 0 < E.length + fin.uploaded.length then "partial_success" else "error") ∧
    (classifyUploadOutcome E fin).status ≠ "success" := by
  obtain ⟨err, herr⟩ := Option.isSome_iff_exists.mp h
  unfold classifyUploadOutcome
  rw [herr]
  by_cases hu : fin.uploaded.isEmpty
  · by_cases hE : E.isEmpty
    · have h1 : E.length = 0 := by simpa [List.isEmpty_iff, List.length_eq_zero] using hE
      have h2 : fin.uploaded.length = 0 := by
        simpa [List.isEmpty_iff, List.length_eq_zero] using hu
      simp [hu, hE, h1, h2]
    · have h1 : 0 < E.length := by
        cases E
        · simp at hE
        · simp
      simp only [hu, hE]
      refine ⟨?_, by simp⟩
      rw [if_neg (by simp), if_pos (by simp), if_pos (by omega)]
  · have h2 : 0 < fin.uploaded.length := by
      cases hu2 : fin.uploaded
      · rw [hu2] at hu; simp at hu
      · simp [hu2]
    simp only [hu]
    refine ⟨?_, by simp⟩
    rw [if_pos (by simp), if_pos (by omega)]

/-- When a pass reports an upload-loop final state, that state is the
round loop's result and the pass's result is its classification. -/
theorem indexProject_upload_case (loaded : List (List Char)) (blobs : List Blob)
    (net : Nat → BatchNet) (fin : UploadLoopState)
    (hfin : (indexProject loaded blobs net).finalState = some fin) :
    fin = uploadFinalState loaded blobs net ∧
    (indexProject loaded blobs net).result =
      classifyUploadOutcome (existingHashesOf loaded blobs) fin ∧
    (indexProject loaded blobs net).existingHashes = existingHashesOf loaded blobs := by
  unfold indexProject at hfin ⊢
  by_cases h0 : blobs.isEmpty
  · simp [h0] at hfin
  · simp only [h0, Bool.false_eq_true, if_false] at hfin ⊢
    by_cases h1 : (blobsToUploadOf loaded blobs).isEmpty
    · simp [h1] at hfin
    · simp only [h1, Bool.false_eq_true, if_false] at hfin ⊢
      obtain rfl : uploadFinalState loaded blobs net = fin := by simpa using hfin
      exact ⟨rfl, rfl, trivial⟩

/-- C5: if any dispatched batch (`0 < i ≤ fin.totalBatchIdx`) fails with
an HTTP 401 response, the pass ends with `fatalError` set, returns
`partial_success` when `existing_blobs + new_blobs > 0` and `error`
otherwise, and never `success`; moreover, once `fatalError` is set,
neither the group loop nor the round loop starts any further dispatch. -/
theorem indexProject_fatal_on_401 (loaded : List (List Char)) (blobs : List Blob)
    (net : Nat → BatchNet) (i : Nat) (e : ReqError) (fin : UploadLoopState)
    (hfin : (indexProject loaded blobs net).finalState = some fin)
    (hnet : net i = .fail e) (h401 : e.status = some 401)
    (hpos : 0 < i) (hle : i ≤ fin.totalBatchIdx) :
    fin.fatalError.isSome = true ∧
    (indexProject loaded blobs net).result.status =
      (if 0 < (indexProject loaded blobs net).existingHashes.length + fin.uploaded.length
       then "partial_success" else "error") ∧
    (indexProject loaded blobs net).result.status ≠ "success" ∧
    (∀ (gs : List (List (List Blob))) (st : UploadLoopState) (fl : List Blob),
      st.fatalError.isSome = true → runGroups net gs st fl = (st, fl)) ∧
    (∀ (fuel : Nat) (st : UploadLoopState), st.fatalError.isSome = true →
      runRounds net
        (getUploadStrategy (blobsToUploadOf loaded blobs).length).concurrency
        fuel st = st) := by
  obtain ⟨hfin_eq, hres, hex⟩ := indexProject_upload_case loaded blobs net fin hfin
  have hfatal_batch : (uploadBatch (net i)).fatal = true := by
    rw [hnet, uploadBatch_fatal_401 e h401]
  have hfs : fin.fatalError.isSome = true := by
    rw [hfin_eq] at hle ⊢
    unfold uploadFinalState at hle ⊢
    exact runRounds_fatal_of_401 net _ i hfatal_batch 3 _ (by simpa using hpos) hle
  have hcl := classifyUploadOutcome_fatal_status (existingHashesOf loaded blobs) fin hfs
  refine ⟨hfs, ?_, ?_, runGroups_fatal_stop net, ?_⟩
  · rw [hres, hex]
    exact hcl.1
  · rw [hres]
    exact hcl.2
  · intro fuel st h
    exact runRounds_fatal_stop net _ fuel st h

/-- C5 witness: a pass over one blob whose upload is rejected with 401:
the single dispatched batch is fatal, nothing was existing or uploaded, so
the status is `error`, and the loops dispatch nothing further from the
final state. -/
theorem indexProject_fatal_on_401_witness :
    ({ pending := [], currentBatchSize := 10, retryRound := 1, totalBatchIdx := 1,
       uploaded := [], fatalError := some tokenInvalidMsg } : UploadLoopState).fatalError.isSome = true ∧
    (indexProject [] [⟨"a", "x"⟩]
        (fun _ => .fail ⟨none, some 401, "Request failed with status code 401"⟩)).result.status =
      (if 0 < (indexProject [] [⟨"a", "x"⟩]
            (fun _ => .fail ⟨none, some 401, "Request failed with status code 401"⟩)).existingHashes.length +
          ({ pending := [], currentBatchSize := 10, retryRound := 1, totalBatchIdx := 1,
             uploaded := [], fatalError := some tokenInvalidMsg } : UploadLoopState).uploaded.length
       then "partial_success" else "error") ∧
    (indexProject [] [⟨"a", "x"⟩]
        (fun _ => .fail ⟨none, some 401, "Request failed with status code 401"⟩)).result.status ≠ "success" ∧
    runGroups (fun _ => .fail ⟨none, some 401, "Request failed with status code 401"⟩) []
        { pending := [], currentBatchSize := 10, retryRound := 1, totalBatchIdx := 1,
          uploaded := [], fatalError := some tokenInvalidMsg } [] =
      ({ pending := [], currentBatchSize := 10, retryRound := 1, totalBatchIdx := 1,
         uploaded := [], fatalError := some tokenInvalidMsg }, []) ∧
    runRounds (fun _ => .fail ⟨none, some 401, "Request failed with status code 401"⟩)
        (getUploadStrategy (blobsToUploadOf [] [⟨"a", "x"⟩]).length).concurrency 3
        { pending := [], currentBatchSize := 10, retryRound := 1, totalBatchIdx := 1,
          uploaded := [], fatalError := some tokenInvalidMsg } =
      { pending := [], currentBatchSize := 10, retryRound := 1, totalBatchIdx := 1,
        uploaded := [], fatalError := some tokenInvalidMsg } := by
  have h := indexProject_fatal_on_401 [] [⟨"a", "x"⟩]
    (fun _ => .fail ⟨none, some 401, "Request failed with status code 401"⟩) 1
    ⟨none, some 401, "Request failed with status code 401"⟩
    { pending := [], currentBatchSize := 10, retryRound := 1, totalBatchIdx := 1,
      uploaded := [], fatalError := some tokenInvalidMsg }
    (by decide) rfl rfl (by decide) (by decide)
  exact ⟨h.1, h.2.1, h.2.2.1,
    h.2.2.2.1 [] _ [] (by decide),
    h.2.2.2.2 3 _ (by decide)⟩

end AceTool
